import Mathlib

/-!
Verification of the single-subject tracking and compositing core of the
Smart Focus app (src/src/App.jsx).  The file embeds the two variants of
the component found in the source (separated in the file by a document
separator): variant 1 (`runLoop` / `handleInteraction`) and variant 2
(`runDetection` / `handleCanvasClick`).  JS numbers are modelled as
rationals; a JS division whose denominator is 0 yields a non-finite
number (NaN here, since the numerator is 0 in every such case that the
code can reach), modelled as `none : Option ℚ`.
-/

namespace SmartFocus

/-- Axis-aligned rectangle as delivered by the detector: fields are the
JS object fields `originX`, `originY`, `width`, `height`. -/
structure Box where
  originX : ℚ
  originY : ℚ
  width : ℚ
  height : ℚ
deriving DecidableEq, Repr

/-- A detection; the tracking logic only reads `boundingBox` (labels and
scores are passed through to the overlay drawing, not to tracking). -/
structure Detection where
  boundingBox : Box
deriving DecidableEq, Repr

/-- JS division on finite operands: when the denominator is 0 the JS
result is non-finite (`NaN` when the numerator is 0, else ±Infinity),
modelled as `none`. -/
def jsDiv (n d : ℚ) : Option ℚ :=
  if d = 0 then none else some (n / d)

/-- The intersection area computed in `calculateIoU` (App.jsx lines
24-28 and 279-284): `Math.max(0, xB - xA) * Math.max(0, yB - yA)`. -/
def interArea (a b : Box) : ℚ :=
  max 0 (min (a.originX + a.width) (b.originX + b.width) - max a.originX b.originX) *
  max 0 (min (a.originY + a.height) (b.originY + b.height) - max a.originY b.originY)

/-- `width * height`, as written inline throughout the source. -/
def boxArea (a : Box) : ℚ :=
  a.width * a.height

/-- The denominator `boxAArea + boxBArea - interArea` of `calculateIoU`
(App.jsx line 31 / 288). -/
def iouDenom (a b : Box) : ℚ :=
  boxArea a + boxArea b - interArea a b

/-- `calculateIoU` (App.jsx lines 22-32; the second variant, lines
277-289, is textually identical): returns 0 when either box is absent
(`if (!boxA || !boxB) return 0`), otherwise
`interArea / (boxAArea + boxBArea - interArea)` with no guard on the
denominator. -/
def calculateIoU (boxA boxB : Option Box) : Option ℚ :=
  match boxA, boxB with
  | some a, some b => jsDiv (interArea a b) (iouDenom a b)
  | _, _ => some 0

theorem interArea_nonneg (a b : Box) : 0 ≤ interArea a b := by
  exact mul_nonneg (le_max_left 0 _) (le_max_left 0 _)

theorem interArea_comm (a b : Box) : interArea a b = interArea b a := by
  unfold interArea
  rw [min_comm (a.originX + a.width), max_comm a.originX,
      min_comm (a.originY + a.height), max_comm a.originY]

theorem iouDenom_comm (a b : Box) : iouDenom a b = iouDenom b a := by
  unfold iouDenom
  rw [interArea_comm, add_comm (boxArea a)]

/-- If the rectangles have positive overlap then both boxes have
positive area at least the overlap, so the IoU denominator is positive.
Contrapositive used by the C1 analysis: a non-positive denominator
forces a zero intersection area. -/
theorem iouDenom_pos_of_interArea_pos (a b : Box) (h : 0 < interArea a b) :
    0 < iouDenom a b := by
  unfold interArea at h
  set u : ℚ := min (a.originX + a.width) (b.originX + b.width) - max a.originX b.originX with hu
  set v : ℚ := min (a.originY + a.height) (b.originY + b.height) - max a.originY b.originY with hv
  have hu0 : 0 < max 0 u := by
    rcases lt_or_le 0 (max 0 u) with h1 | h1
    · exact h1
    · exfalso
      have hue : max 0 u = 0 := le_antisymm h1 (le_max_left 0 u)
      rw [hue, zero_mul] at h
      linarith
  have hv0 : 0 < max 0 v := by
    rcases lt_or_le 0 (max 0 v) with h1 | h1
    · exact h1
    · exfalso
      have hve : max 0 v = 0 := le_antisymm h1 (le_max_left 0 v)
      rw [hve, mul_zero] at h
      linarith
  have hupos : 0 < u := by
    rcases le_or_lt u 0 with h1 | h1
    · rw [max_eq_left h1] at hu0; linarith
    · exact h1
  have hvpos : 0 < v := by
    rcases le_or_lt v 0 with h1 | h1
    · rw [max_eq_left h1] at hv0; linarith
    · exact h1
  have hmu : max 0 u = u := max_eq_right hupos.le
  have hmv : max 0 v = v := max_eq_right hvpos.le
  have huaw : u ≤ a.width := by
    have h1 : min (a.originX + a.width) (b.originX + b.width) ≤ a.originX + a.width :=
      min_le_left _ _
    have h2 : a.originX ≤ max a.originX b.originX := le_max_left _ _
    rw [hu]; linarith
  have hubw : u ≤ b.width := by
    have h1 : min (a.originX + a.width) (b.originX + b.width) ≤ b.originX + b.width :=
      min_le_right _ _
    have h2 : b.originX ≤ max a.originX b.originX := le_max_right _ _
    rw [hu]; linarith
  have hvah : v ≤ a.height := by
    have h1 : min (a.originY + a.height) (b.originY + b.height) ≤ a.originY + a.height :=
      min_le_left _ _
    have h2 : a.originY ≤ max a.originY b.originY := le_max_left _ _
    rw [hv]; linarith
  have hvbh : v ≤ b.height := by
    have h1 : min (a.originY + a.height) (b.originY + b.height) ≤ b.originY + b.height :=
      min_le_right _ _
    have h2 : b.originY ≤ max a.originY b.originY := le_max_right _ _
    rw [hv]; linarith
  have hinterA : u * v ≤ boxArea a := by
    unfold boxArea
    exact mul_le_mul huaw hvah hvpos.le (by linarith)
  have hinterB : u * v ≤ boxArea b := by
    unfold boxArea
    exact mul_le_mul hubw hvbh hvpos.le (by linarith)
  have huv : 0 < u * v := mul_pos hupos hvpos
  unfold iouDenom interArea
  rw [← hu, ← hv, hmu, hmv]
  linarith

/-- A non-positive IoU denominator forces zero intersection area. -/
theorem interArea_eq_zero_of_iouDenom_nonpos (a b : Box) (h : iouDenom a b ≤ 0) :
    interArea a b = 0 := by
  rcases lt_or_eq_of_le (interArea_nonneg a b) with h1 | h1
  · exact absurd (iouDenom_pos_of_interArea_pos a b h1) (not_lt.mpr h)
  · exact h1.symm

/-- Concrete degenerate input for C1: the zero-area rectangle. -/
def zeroBox : Box :=
  ⟨0, 0, 0, 0⟩

/-- C1 counterexample: on two zero-area rectangles the denominator of
`calculateIoU` is ≤ 0, yet the code has no guard and performs `0 / 0`,
which in JS is `NaN` (modelled `none`), not the number 0 claimed. -/
theorem C1_counterexample :
    iouDenom zeroBox zeroBox ≤ 0 ∧ calculateIoU (some zeroBox) (some zeroBox) ≠ some 0 := by
  constructor
  · simp [iouDenom, boxArea, interArea, zeroBox]
  · simp [calculateIoU, jsDiv, iouDenom, boxArea, interArea, zeroBox]

/-- C1 (amended): `calculateIoU` returns 0 for every pair of rectangles
whose denominator is strictly negative (the numerator is then forced to
0 and JS division of 0 by a nonzero number is 0); when the denominator
is exactly 0 — both rectangles with zero area — there is no guard and
the code divides 0 by 0, returning NaN rather than 0. -/
theorem C1_amended (a b : Box) (h : iouDenom a b < 0) :
    calculateIoU (some a) (some b) = some 0 := by
  have hzero : interArea a b = 0 := interArea_eq_zero_of_iouDenom_nonpos a b h.le
  simp only [calculateIoU, jsDiv, hzero]
  rw [if_neg (by exact h.ne)]
  simp

/-- Concrete rectangle with a negative height, giving a strictly
negative IoU denominator. -/
def negBox : Box :=
  ⟨0, 0, 10, -1⟩

theorem C1_amended_witness :
    calculateIoU (some negBox) (some negBox) = some 0 := by
  refine C1_amended negBox negBox ?h
  simp [iouDenom, boxArea, interArea, negBox]

/-- C8: `calculateIoU` is symmetric in its two arguments, absent inputs
(the `!boxA || !boxB` guard) and degenerate rectangles included. -/
theorem C8_iou_symmetric (a b : Option Box) : calculateIoU a b = calculateIoU b a := by
  match a, b with
  | none, none => rfl
  | none, some _ => rfl
  | some _, none => rfl
  | some x, some y =>
    simp only [calculateIoU]
    rw [interArea_comm, iouDenom_comm]

/-- One iteration of the tracking forEach (runLoop lines 118-124,
runDetection lines 384-390, identical logic): the loop state is the pair
`(maxIoU, activeBox)`; a detection takes over when
`iou > maxIoU && iou > 0.25`.  A `none` IoU is JS `NaN`, for which both
comparisons are false. -/
def matchStep (trackedBox : Box) (s : ℚ × Option Box) (det : Detection) : ℚ × Option Box :=
  match calculateIoU (some trackedBox) (some det.boundingBox) with
  | some iou => if iou > s.1 ∧ iou > (0.25 : ℚ) then (iou, some det.boundingBox) else s
  | none => s

/-- The whole tracking forEach: fold `matchStep` from the initial state
`maxIoU = 0`, `activeBox/bestMatch = null`, and return the chosen box. -/
def bestMatch (trackedBox : Box) (dets : List Detection) : Option Box :=
  (dets.foldl (matchStep trackedBox) (0, none)).2

/-- The reduce callback of runLoop lines 130-131:
`(prev, current) => prev.area > current.area ? prev : current`. -/
def reducePrev (prev current : Detection) : Detection :=
  if prev.boundingBox.width * prev.boundingBox.height >
      current.boundingBox.width * current.boundingBox.height then prev else current

/-- `currentDetections.reduce(...)` of variant 1 (runLoop lines 130-132):
a JS reduce with no seed takes the first element as the initial
accumulator; the result's `boundingBox` is taken.  `none` on the empty
list (the caller guards with `length > 0`). -/
def selectReduce : List Detection → Option Box
  | [] => none
  | d :: ds => some (ds.foldl reducePrev d).boundingBox

/-- One forEach iteration of the auto-focus scan of variant 2
(runDetection lines 403-409): keep the strictly larger area. -/
def largestStep (s : Box × ℚ) (det : Detection) : Box × ℚ :=
  let area := det.boundingBox.width * det.boundingBox.height
  if area > s.2 then (det.boundingBox, area) else s

/-- Auto-focus of variant 2 (runDetection lines 399-411): start from
`currentDetections[0]` and forEach over the whole list with a strict
comparison, so the first maximal element is kept. -/
def selectForEach : List Detection → Option Box
  | [] => none
  | d :: ds =>
    some (((d :: ds).foldl largestStep
      (d.boundingBox, d.boundingBox.width * d.boundingBox.height)).1)

/-- Per-frame tracker update of variant 1 (runLoop lines 115-134).
Returns the pair (new `trackedBox` state, `activeBox` used for this
frame's compositing).  Note there is no branch writing `null` to
`trackedBox`: `setTrackedBox` is called only under `if (activeBox)` or
in the auto-selection fallback. -/
def runLoopTrack (trackedBox : Option Box) (isAutoTrack : Bool)
    (currentDetections : List Detection) : Option Box × Option Box :=
  let activeBox : Option Box :=
    match trackedBox with
    | some tb => bestMatch tb currentDetections
    | none => none
  let tracked1 := if activeBox.isSome then activeBox else trackedBox
  if activeBox.isNone ∧ isAutoTrack ∧ 0 < currentDetections.length then
    (selectReduce currentDetections, selectReduce currentDetections)
  else
    (tracked1, activeBox)

/-- Per-frame tracker update of variant 2 (runDetection lines 377-412),
same shape with variant 2's auto-focus selector; again no branch writes
`null` to `trackedBox` inside the frame update. -/
def runDetectionTrack (trackedBox : Option Box) (isAutoTrack : Bool)
    (currentDetections : List Detection) : Option Box × Option Box :=
  let updatedTrackedBox : Option Box :=
    match trackedBox with
    | some tb => bestMatch tb currentDetections
    | none => none
  let tracked1 := if updatedTrackedBox.isSome then updatedTrackedBox else trackedBox
  if isAutoTrack ∧ updatedTrackedBox.isNone ∧ 0 < currentDetections.length then
    (selectForEach currentDetections, selectForEach currentDetections)
  else
    (tracked1, updatedTrackedBox)

/-- Boolean hypothesis language for the tracker claims: does
`calculateIoU(r, b)` exceed the threshold `τ`?  A `none` (NaN) IoU never
exceeds, matching JS comparison semantics. -/
def iouAboveB (r b : Box) (τ : ℚ) : Bool :=
  match calculateIoU (some r) (some b) with
  | some q => decide (τ < q)
  | none => false

theorem matchStep_eq_of_not_above (R : Box) (s : ℚ × Option Box) (d : Detection)
    (h : iouAboveB R d.boundingBox 0.25 = false) : matchStep R s d = s := by
  unfold iouAboveB at h
  cases hiou : calculateIoU (some R) (some d.boundingBox) with
  | none => simp [matchStep, hiou]
  | some q =>
    rw [hiou] at h
    have hq : ¬ ((0.25 : ℚ) < q) := of_decide_eq_false h
    simp only [matchStep, hiou]
    rw [if_neg]
    exact fun hc => hq hc.2

theorem foldl_matchStep_const (R : Box) (L : List Detection) (s : ℚ × Option Box)
    (h : ∀ d ∈ L, iouAboveB R d.boundingBox 0.25 = false) :
    L.foldl (matchStep R) s = s := by
  induction L generalizing s with
  | nil => rfl
  | cons d ds ih =>
    rw [List.foldl_cons, matchStep_eq_of_not_above R s d (h d (List.mem_cons_self d ds))]
    exact ih s (fun x hx => h x (List.mem_cons_of_mem d hx))

theorem bestMatch_none (R : Box) (L : List Detection)
    (h : ∀ d ∈ L, iouAboveB R d.boundingBox 0.25 = false) :
    bestMatch R L = none := by
  unfold bestMatch
  rw [foldl_matchStep_const R L (0, none) h]

/-- When exactly one detection exceeds the threshold, the forEach lands
on it: the state stays `(0, null)` before it (nothing passes the
`iou > 0.25` test), switches to its box there, and is never displaced
afterwards. -/
theorem bestMatch_unique (R : Box) (D₁ D₂ : List Detection) (d : Detection)
    (hd : iouAboveB R d.boundingBox 0.25 = true)
    (h1 : ∀ x ∈ D₁, iouAboveB R x.boundingBox 0.25 = false)
    (h2 : ∀ x ∈ D₂, iouAboveB R x.boundingBox 0.25 = false) :
    bestMatch R (D₁ ++ d :: D₂) = some d.boundingBox := by
  unfold bestMatch
  rw [List.foldl_append, foldl_matchStep_const R D₁ (0, none) h1, List.foldl_cons]
  unfold iouAboveB at hd
  cases hiou : calculateIoU (some R) (some d.boundingBox) with
  | none => rw [hiou] at hd; exact absurd hd (by simp)
  | some q =>
    rw [hiou] at hd
    have hq : (0.25 : ℚ) < q := of_decide_eq_true hd
    have hstep : matchStep R (0, none) d = (q, some d.boundingBox) := by
      simp only [matchStep, hiou]
      rw [if_pos]
      exact ⟨lt_trans (by norm_num) hq, hq⟩
    rw [hstep, foldl_matchStep_const R D₂ (q, some d.boundingBox) h2]

/-- Locked region for concrete tracker scenarios. -/
def R0 : Box :=
  ⟨0, 0, 10, 10⟩

/-- A detection far away from `R0` (IoU 0). -/
def dFar : Detection :=
  ⟨⟨100, 100, 10, 10⟩⟩

/-- A detection overlapping `R0` with IoU 64/136 > 0.25. -/
def dNear : Detection :=
  ⟨⟨2, 2, 10, 10⟩⟩

/-- C2 counterexample: Locked on `R0`, one non-overlapping detection,
auto-track disabled.  The claim says the tracked region becomes null
(Idle); both variants in fact keep the stale region `R0`, because
`setTrackedBox` is only ever called with a box, never with null, in the
frame update. -/
theorem C2_counterexample :
    (runLoopTrack (some R0) false [dFar]).1 = some R0
    ∧ (runDetectionTrack (some R0) false [dFar]).1 = some R0
    ∧ (some R0 : Option Box) ≠ none := by
  norm_num [runLoopTrack, runDetectionTrack, bestMatch, matchStep, calculateIoU,
    jsDiv, interArea, iouDenom, boxArea, R0, dFar]
  simp [R0]

/-- C2 (amended): if `Locked` on `R` and no detection's IoU with `R`
exceeds 0.25, and auto-track is disabled (or the detection set is
empty), the per-frame update of both variants leaves the tracked region
unchanged at `some R` — it does NOT transition to Idle/null; only the
frame's active compositing box is null. -/
theorem C2_amended (R : Box) (isAutoTrack : Bool) (D : List Detection)
    (hno : ∀ d ∈ D, iouAboveB R d.boundingBox 0.25 = false)
    (hcase : isAutoTrack = false ∨ D = []) :
    runLoopTrack (some R) isAutoTrack D = (some R, none)
    ∧ runDetectionTrack (some R) isAutoTrack D = (some R, none) := by
  have hbm : bestMatch R D = none := bestMatch_none R D hno
  rcases hcase with h | h
  · subst h
    constructor <;> simp [runLoopTrack, runDetectionTrack, hbm]
  · subst h
    constructor <;> simp [runLoopTrack, runDetectionTrack, hbm]

theorem C2_amended_witness :
    runLoopTrack (some R0) false [dFar] = (some R0, none)
    ∧ runDetectionTrack (some R0) false [dFar] = (some R0, none) :=
  C2_amended R0 false [dFar]
    (by
      intro d hd
      rw [List.mem_singleton] at hd
      subst hd
      norm_num [iouAboveB, calculateIoU, jsDiv, interArea, iouDenom, boxArea, R0, dFar])
    (Or.inl rfl)

/-- C6: if `Locked` on `R` and the frame's detections contain exactly
one detection `d` whose IoU with `R` exceeds the 0.25 threshold (every
other detection's IoU does not exceed it), then both variants stay
Locked and the tracked region becomes `d`'s box, whatever the auto-track
flags are. -/
theorem C6_unique_match (R : Box) (auto1 auto2 : Bool) (D₁ D₂ : List Detection) (d : Detection)
    (hd : iouAboveB R d.boundingBox 0.25 = true)
    (h1 : ∀ x ∈ D₁, iouAboveB R x.boundingBox 0.25 = false)
    (h2 : ∀ x ∈ D₂, iouAboveB R x.boundingBox 0.25 = false) :
    (runLoopTrack (some R) auto1 (D₁ ++ d :: D₂)).1 = some d.boundingBox
    ∧ (runDetectionTrack (some R) auto2 (D₁ ++ d :: D₂)).1 = some d.boundingBox := by
  have hbm := bestMatch_unique R D₁ D₂ d hd h1 h2
  constructor <;> simp [runLoopTrack, runDetectionTrack, hbm]

theorem C6_witness :
    (runLoopTrack (some R0) false ([] ++ dNear :: [])).1 = some dNear.boundingBox
    ∧ (runDetectionTrack (some R0) true ([] ++ dNear :: [])).1 = some dNear.boundingBox :=
  C6_unique_match R0 false true [] [] dNear
    (by norm_num [iouAboveB, calculateIoU, jsDiv, interArea, iouDenom, boxArea, R0, dNear])
    (by simp) (by simp)

/-- Shorthand for the area `boundingBox.width * boundingBox.height` the
two selection policies compare. -/
def detArea (d : Detection) : ℚ :=
  d.boundingBox.width * d.boundingBox.height

theorem foldl_reducePrev_le (A : ℚ) :
    ∀ (L : List Detection) (acc : Detection), detArea acc ≤ A → (∀ x ∈ L, detArea x ≤ A) →
      detArea (L.foldl reducePrev acc) ≤ A := by
  intro L
  induction L with
  | nil => intro acc hacc _; exact hacc
  | cons x xs ih =>
    intro acc hacc h
    rw [List.foldl_cons]
    apply ih
    · unfold reducePrev
      split
      · exact hacc
      · exact h x (List.mem_cons_self x xs)
    · exact fun y hy => h y (List.mem_cons_of_mem x hy)

theorem foldl_reducePrev_keep (d : Detection) :
    ∀ L : List Detection, (∀ x ∈ L, detArea x < detArea d) → L.foldl reducePrev d = d := by
  intro L
  induction L with
  | nil => intro _; rfl
  | cons x xs ih =>
    intro h
    rw [List.foldl_cons]
    have hx : reducePrev d x = d := by
      unfold reducePrev
      exact if_pos (h x (List.mem_cons_self x xs))
    rw [hx]
    exact ih (fun y hy => h y (List.mem_cons_of_mem x hy))

theorem foldl_largestStep_const :
    ∀ (L : List Detection) (s : Box × ℚ), (∀ x ∈ L, detArea x ≤ s.2) →
      L.foldl largestStep s = s := by
  intro L
  induction L with
  | nil => intro s _; rfl
  | cons x xs ih =>
    intro s h
    rw [List.foldl_cons]
    have hx : largestStep s x = s := by
      simp only [largestStep]
      exact if_neg (not_lt.mpr (h x (List.mem_cons_self x xs)))
    rw [hx]
    exact ih s (fun y hy => h y (List.mem_cons_of_mem x hy))

theorem foldl_largestStep_lt (A : ℚ) :
    ∀ (L : List Detection) (s : Box × ℚ), s.2 < A → (∀ x ∈ L, detArea x < A) →
      (L.foldl largestStep s).2 < A := by
  intro L
  induction L with
  | nil => intro s hs _; exact hs
  | cons x xs ih =>
    intro s hs h
    rw [List.foldl_cons]
    apply ih
    · simp only [largestStep]
      split
      · exact h x (List.mem_cons_self x xs)
      · exact hs
    · exact fun y hy => h y (List.mem_cons_of_mem x hy)

theorem selectForEach_first_max (D₁ D₂ : List Detection) (d : Detection)
    (h1 : ∀ x ∈ D₁, detArea x < detArea d) (h2 : ∀ x ∈ D₂, detArea x ≤ detArea d) :
    selectForEach (D₁ ++ d :: D₂) = some d.boundingBox := by
  cases D₁ with
  | nil =>
    simp only [List.nil_append, selectForEach]
    rw [List.foldl_cons]
    have hd : largestStep (d.boundingBox, d.boundingBox.width * d.boundingBox.height) d
        = (d.boundingBox, d.boundingBox.width * d.boundingBox.height) := by
      simp only [largestStep]
      rw [if_neg (lt_irrefl _)]
    rw [hd, foldl_largestStep_const D₂ _ h2]
  | cons e es =>
    simp only [List.cons_append, selectForEach]
    rw [List.foldl_cons]
    have he : largestStep (e.boundingBox, e.boundingBox.width * e.boundingBox.height) e
        = (e.boundingBox, e.boundingBox.width * e.boundingBox.height) := by
      simp only [largestStep]
      rw [if_neg (lt_irrefl _)]
    rw [he, List.foldl_append, List.foldl_cons]
    have hmid : (es.foldl largestStep
        (e.boundingBox, e.boundingBox.width * e.boundingBox.height)).2 < detArea d := by
      apply foldl_largestStep_lt (detArea d) es
      · exact h1 e (List.mem_cons_self e es)
      · exact fun y hy => h1 y (List.mem_cons_of_mem e hy)
    have hstep : largestStep
        (es.foldl largestStep (e.boundingBox, e.boundingBox.width * e.boundingBox.height)) d
        = (d.boundingBox, d.boundingBox.width * d.boundingBox.height) := by
      simp only [largestStep]
      exact if_pos hmid
    rw [hstep, foldl_largestStep_const D₂ _ h2]

theorem selectReduce_last_max (D₁ D₂ : List Detection) (d : Detection)
    (h1 : ∀ x ∈ D₁, detArea x ≤ detArea d) (h2 : ∀ x ∈ D₂, detArea x < detArea d) :
    selectReduce (D₁ ++ d :: D₂) = some d.boundingBox := by
  cases D₁ with
  | nil =>
    simp only [List.nil_append, selectReduce]
    rw [foldl_reducePrev_keep d D₂ h2]
  | cons e es =>
    simp only [List.cons_append, selectReduce]
    rw [List.foldl_append, List.foldl_cons]
    have hacc : detArea (es.foldl reducePrev e) ≤ detArea d :=
      foldl_reducePrev_le (detArea d) es e (h1 e (List.mem_cons_self e es))
        (fun y hy => h1 y (List.mem_cons_of_mem e hy))
    have hstep : reducePrev (es.foldl reducePrev e) d = d := by
      unfold reducePrev
      exact if_neg (not_lt.mpr hacc)
    rw [hstep, foldl_reducePrev_keep d D₂ h2]

/-- Two detections tying at area 100 with distinct boxes. -/
def dA : Detection :=
  ⟨⟨0, 0, 10, 10⟩⟩

/-- Second detection of the tie, same area different position. -/
def dB : Detection :=
  ⟨⟨5, 5, 10, 10⟩⟩

/-- C5 counterexample: on a tie of maximal areas, variant 1's reduce
(`prev.area > current.area ? prev : current`) hands the accumulator to
`current`, so the LAST maximal detection wins — not the first as
claimed. -/
theorem C5_counterexample :
    selectReduce [dA, dB] = some dB.boundingBox ∧ dB.boundingBox ≠ dA.boundingBox := by
  constructor
  · norm_num [selectReduce, reducePrev, dA, dB]
  · norm_num [dA, dB]

/-- C5 (amended): both auto-selection policies return the box of a
detection of maximal `width * height`, but the tie-break differs between
the variants: variant 2's forEach with a strict comparison keeps the
FIRST maximal element, while variant 1's reduce keeps the LAST maximal
element in iteration order. -/
theorem C5_amended :
    (∀ (D₁ D₂ : List Detection) (d : Detection),
        (∀ x ∈ D₁, detArea x < detArea d) → (∀ x ∈ D₂, detArea x ≤ detArea d) →
        selectForEach (D₁ ++ d :: D₂) = some d.boundingBox)
    ∧ (∀ (D₁ D₂ : List Detection) (d : Detection),
        (∀ x ∈ D₁, detArea x ≤ detArea d) → (∀ x ∈ D₂, detArea x < detArea d) →
        selectReduce (D₁ ++ d :: D₂) = some d.boundingBox) :=
  ⟨selectForEach_first_max, selectReduce_last_max⟩

/-- The smaller detection of the spec's selector test. -/
def dSmall : Detection :=
  ⟨⟨0, 0, 10, 10⟩⟩

/-- The larger detection of the spec's selector test. -/
def dBig : Detection :=
  ⟨⟨0, 0, 20, 20⟩⟩

theorem C5_amended_witness :
    selectForEach ([dSmall] ++ dBig :: []) = some dBig.boundingBox
    ∧ selectReduce ([dSmall] ++ dBig :: []) = some dBig.boundingBox := by
  constructor
  · refine C5_amended.1 [dSmall] [] dBig ?h1 ?h2
    · intro x hx
      rw [List.mem_singleton] at hx
      subst hx
      norm_num [detArea, dSmall, dBig]
    · simp
  · refine C5_amended.2 [dSmall] [] dBig ?h3 ?h4
    · intro x hx
      rw [List.mem_singleton] at hx
      subst hx
      norm_num [detArea, dSmall, dBig]
    · simp

/-- Containment test of handleInteraction line 193:
`x >= b.originX && x <= b.originX + b.width && y >= b.originY && y <= b.originY + b.height`. -/
def containsPoint (b : Box) (x y : ℚ) : Bool :=
  decide (x ≥ b.originX ∧ x ≤ b.originX + b.width ∧ y ≥ b.originY ∧ y ≤ b.originY + b.height)

/-- Containment test of handleCanvasClick lines 486-491, with the 20px
inflation margin on every side. -/
def containsPointMargin (b : Box) (x y : ℚ) : Bool :=
  decide (x ≥ b.originX - 20 ∧ x ≤ b.originX + b.width + 20 ∧
    y ≥ b.originY - 20 ∧ y ≤ b.originY + b.height + 20)

/-- handleInteraction (variant 1, lines 185-197), given the mapped
source-frame point `(x, y)` (the client-to-source mapping of lines
188-189 is display glue): early return when `detections.length === 0`,
then a forEach in which EVERY containing detection calls
`setTrackedBox`, so the last containing box wins; if none contains the
point, the tracked box is untouched. -/
def handleInteractionUpdate (trackedBox : Option Box) (detections : List Detection)
    (x y : ℚ) : Option Box :=
  if detections.length = 0 then trackedBox
  else detections.foldl
    (fun tb d => if containsPoint d.boundingBox x y then some d.boundingBox else tb) trackedBox

/-- handleCanvasClick (variant 2, lines 469-497), given the mapped point:
early return when `detections.length === 0`; otherwise `found` starts at
null, every containing (margin-inflated) box overwrites it, and
`setTrackedBox(found)` runs UNCONDITIONALLY — so a miss stores null. -/
def handleCanvasClickUpdate (trackedBox : Option Box) (detections : List Detection)
    (x y : ℚ) : Option Box :=
  if detections.length = 0 then trackedBox
  else detections.foldl
    (fun found d => if containsPointMargin d.boundingBox x y then some d.boundingBox else found)
    none

theorem foldl_hit_const (p : Detection → Bool) :
    ∀ (L : List Detection) (init : Option Box), (∀ d ∈ L, p d = false) →
      L.foldl (fun s e => if p e then some e.boundingBox else s) init = init := by
  intro L
  induction L with
  | nil => intro init _; rfl
  | cons x xs ih =>
    intro init h
    rw [List.foldl_cons]
    have hx : (if p x then some x.boundingBox else init) = init := by
      rw [h x (List.mem_cons_self x xs)]
      simp
    rw [hx]
    exact ih init (fun y hy => h y (List.mem_cons_of_mem x hy))

theorem foldl_hit_last (p : Detection → Bool) (L₁ L₂ : List Detection) (d : Detection)
    (init : Option Box) (hd : p d = true) (h2 : ∀ x ∈ L₂, p x = false) :
    (L₁ ++ d :: L₂).foldl (fun s e => if p e then some e.boundingBox else s) init
      = some d.boundingBox := by
  rw [List.foldl_append, List.foldl_cons]
  have hstep : (if p d then some d.boundingBox
      else L₁.foldl (fun s e => if p e then some e.boundingBox else s) init)
      = some d.boundingBox := by
    rw [hd]
    simp
  rw [hstep, foldl_hit_const p L₂ (some d.boundingBox) h2]

/-- A point inside the plain box is inside the inflated box, so a miss on
every inflated box is also a miss on every plain box. -/
theorem containsPoint_eq_false_of_margin (b : Box) (x y : ℚ)
    (h : containsPointMargin b x y = false) : containsPoint b x y = false := by
  unfold containsPointMargin at h
  unfold containsPoint
  rw [decide_eq_false_iff_not] at h ⊢
  intro hc
  exact h ⟨by linarith [hc.1], by linarith [hc.2.1], by linarith [hc.2.2.1],
    by linarith [hc.2.2.2]⟩

/-- C3 counterexample: with a locked region and one (non-containing)
detection, a missed click through variant 2's handleCanvasClick writes
null to the tracked box — the state changes from `some R0` to `none`,
contradicting "a miss is a no-op on tracking state". -/
theorem C3_counterexample :
    handleCanvasClickUpdate (some R0) [dFar] 50 50 = none
    ∧ (none : Option Box) ≠ some R0 := by
  constructor
  · norm_num [handleCanvasClickUpdate, containsPointMargin, dFar]
  · simp

/-- C3 (amended): when the mapped click point lies in no detection's
(margin-inflated) box, variant 1's handleInteraction indeed leaves the
tracked region unchanged, but variant 2's handleCanvasClick stores the
null miss result: with a non-empty detection list the tracked region is
cleared to null (with an empty list both handlers return early and
change nothing). -/
theorem C3_amended (tb : Option Box) (x y : ℚ) (D : List Detection)
    (h : ∀ d ∈ D, containsPointMargin d.boundingBox x y = false) :
    handleInteractionUpdate tb D x y = tb
    ∧ handleCanvasClickUpdate tb D x y = (if D.length = 0 then tb else none) := by
  have hplain : ∀ d ∈ D, containsPoint d.boundingBox x y = false :=
    fun d hd => containsPoint_eq_false_of_margin d.boundingBox x y (h d hd)
  constructor
  · unfold handleInteractionUpdate
    split
    · rfl
    · exact foldl_hit_const (fun e => containsPoint e.boundingBox x y) D tb hplain
  · unfold handleCanvasClickUpdate
    split
    · rfl
    · exact foldl_hit_const (fun e => containsPointMargin e.boundingBox x y) D none h

theorem C3_witness :
    handleInteractionUpdate (some R0) [dFar] 50 50 = some R0
    ∧ handleCanvasClickUpdate (some R0) [dFar] 50 50 = none :=
  C3_amended (some R0) 50 50 [dFar]
    (by
      intro d hd
      rw [List.mem_singleton] at hd
      subst hd
      norm_num [containsPointMargin, dFar])

/-- First detection containing the point (5, 5). -/
def dHit1 : Detection :=
  ⟨⟨0, 0, 10, 10⟩⟩

/-- Second, overlapping detection also containing (5, 5). -/
def dHit2 : Detection :=
  ⟨⟨4, 4, 10, 10⟩⟩

/-- C4 counterexample: the point (5, 5) lies in both detections' boxes,
and both click handlers return the SECOND box — the forEach keeps
overwriting, so the last containing detection wins, not the first as
claimed. -/
theorem C4_counterexample :
    handleInteractionUpdate none [dHit1, dHit2] 5 5 = some dHit2.boundingBox
    ∧ handleCanvasClickUpdate none [dHit1, dHit2] 5 5 = some dHit2.boundingBox
    ∧ dHit2.boundingBox ≠ dHit1.boundingBox := by
  refine ⟨?h1, ?h2, ?h3⟩
  · norm_num [handleInteractionUpdate, containsPoint, dHit1, dHit2]
  · norm_num [handleCanvasClickUpdate, containsPointMargin, dHit1, dHit2]
  · norm_num [dHit1, dHit2]

/-- C4 (amended): when the mapped point is contained in several boxes,
the hit test of both variants selects the LAST detection in iteration
order whose (for variant 2, margin-inflated) box contains the point: the
latest containing box becomes the new tracked region. -/
theorem C4_amended (tb : Option Box) (x y : ℚ) (D₁ D₂ : List Detection) (d : Detection)
    (hd1 : containsPoint d.boundingBox x y = true)
    (hd2 : containsPointMargin d.boundingBox x y = true)
    (h1 : ∀ e ∈ D₂, containsPoint e.boundingBox x y = false)
    (h2 : ∀ e ∈ D₂, containsPointMargin e.boundingBox x y = false) :
    handleInteractionUpdate tb (D₁ ++ d :: D₂) x y = some d.boundingBox
    ∧ handleCanvasClickUpdate tb (D₁ ++ d :: D₂) x y = some d.boundingBox := by
  have hlen : ¬ (D₁ ++ d :: D₂).length = 0 := by simp
  constructor
  · unfold handleInteractionUpdate
    rw [if_neg hlen]
    exact foldl_hit_last (fun e => containsPoint e.boundingBox x y) D₁ D₂ d tb hd1 h1
  · unfold handleCanvasClickUpdate
    rw [if_neg hlen]
    exact foldl_hit_last (fun e => containsPointMargin e.boundingBox x y) D₁ D₂ d none hd2 h2

theorem C4_witness :
    handleInteractionUpdate none ([dHit1] ++ dHit2 :: []) 5 5 = some dHit2.boundingBox
    ∧ handleCanvasClickUpdate none ([dHit1] ++ dHit2 :: []) 5 5 = some dHit2.boundingBox :=
  C4_amended none 5 5 [dHit1] [] dHit2
    (by norm_num [containsPoint, dHit2])
    (by norm_num [containsPointMargin, dHit2])
    (by simp) (by simp)

/-- Declarative canvas filter state set before a draw call: a blur
radius (`blur(Npx)`), a brightness factor (`brightness(f)`), and whether
`grayscale(100%)` is included. -/
structure Filter where
  blur : Option ℚ
  brightness : Option ℚ
  grayscale : Bool
deriving DecidableEq, Repr

/-- Declarative per-frame compositing plan: the background full-frame
draw's filter and, when a second sharp layer is drawn, its clip
rectangle. -/
structure DrawPlan where
  background : Filter
  foregroundClip : Option Box
deriving DecidableEq, Repr

/-- The clip rectangle of the sharp layer: the active box expanded by
the fixed 10px margin (`ctx.rect(originX - 10, originY - 10, width + 20,
height + 20)`, App.jsx line 147 / 430). -/
def expandBox (b : Box) : Box :=
  ⟨b.originX - 10, b.originY - 10, b.width + 20, b.height + 20⟩

/-- Compositing decision of variant 1 (runLoop lines 139-155):
`if (activeBox && blurIntensity > 0)` draw the blurred, 0.6-darkened,
optionally grayscale background then the unfiltered frame clipped to the
expanded box; else a single full-frame draw whose filter is grayscale
exactly when color pop is on. -/
def runLoopPlan (activeBox : Option Box) (blurIntensity : ℚ) (isColorPop : Bool) : DrawPlan :=
  match activeBox with
  | some b =>
    if 0 < blurIntensity then
      { background := { blur := some blurIntensity, brightness := some 0.6, grayscale := isColorPop },
        foregroundClip := some (expandBox b) }
    else
      { background := { blur := none, brightness := none, grayscale := isColorPop },
        foregroundClip := none }
  | none =>
    { background := { blur := none, brightness := none, grayscale := isColorPop },
      foregroundClip := none }

/-- Compositing decision of variant 2 (runDetection lines 417-440),
identical shape with `brightness(0.7)`. -/
def runDetectionPlan (updatedTrackedBox : Option Box) (blurIntensity : ℚ)
    (isColorPop : Bool) : DrawPlan :=
  match updatedTrackedBox with
  | some b =>
    if 0 < blurIntensity then
      { background := { blur := some blurIntensity, brightness := some 0.7, grayscale := isColorPop },
        foregroundClip := some (expandBox b) }
    else
      { background := { blur := none, brightness := none, grayscale := isColorPop },
        foregroundClip := none }
  | none =>
    { background := { blur := none, brightness := none, grayscale := isColorPop },
      foregroundClip := none }

/-- C7: over the slider's domain (blur intensity ≥ 0), both variants'
compositing plans are single-layer with no foreground clip exactly when
the active region is null or the intensity is 0; the background filter
has grayscale iff color pop is enabled; and otherwise the plan is
two-layer: a blurred, darkened, optionally grayscale background plus an
unfiltered draw clipped to the region expanded by the fixed 10px
margin. -/
theorem C7_plan (region : Option Box) (blurIntensity : ℚ) (pop : Bool)
    (h : 0 ≤ blurIntensity) :
    ((runLoopPlan region blurIntensity pop).foregroundClip = none ↔
        region = none ∨ blurIntensity = 0)
    ∧ ((runDetectionPlan region blurIntensity pop).foregroundClip = none ↔
        region = none ∨ blurIntensity = 0)
    ∧ (region = none ∨ blurIntensity = 0 →
        runLoopPlan region blurIntensity pop = ⟨⟨none, none, pop⟩, none⟩
        ∧ runDetectionPlan region blurIntensity pop = ⟨⟨none, none, pop⟩, none⟩)
    ∧ (∀ b, region = some b → blurIntensity ≠ 0 →
        runLoopPlan region blurIntensity pop
          = ⟨⟨some blurIntensity, some 0.6, pop⟩, some (expandBox b)⟩
        ∧ runDetectionPlan region blurIntensity pop
          = ⟨⟨some blurIntensity, some 0.7, pop⟩, some (expandBox b)⟩) := by
  cases region with
  | none =>
    refine ⟨by simp [runLoopPlan], by simp [runDetectionPlan], ?_, ?_⟩
    · intro _
      exact ⟨rfl, rfl⟩
    · intro b hb
      exact absurd hb (by simp)
  | some r =>
    rcases lt_or_eq_of_le h with hpos | hzero
    · refine ⟨?_, ?_, ?_, ?_⟩
      · simp [runLoopPlan, hpos, hpos.ne']
      · simp [runDetectionPlan, hpos, hpos.ne']
      · intro hcase
        rcases hcase with hc | hc
        · exact absurd hc (by simp)
        · exact absurd hc.symm hpos.ne
      · intro b hb _
        rw [Option.some_inj] at hb
        subst hb
        constructor
        · simp [runLoopPlan, hpos]
        · simp [runDetectionPlan, hpos]
    · refine ⟨?_, ?_, ?_, ?_⟩
      · simp [runLoopPlan, ← hzero]
      · simp [runDetectionPlan, ← hzero]
      · intro _
        constructor
        · simp [runLoopPlan, ← hzero]
        · simp [runDetectionPlan, ← hzero]
      · intro b _ hne
        exact absurd hzero.symm hne

theorem C7_witness :
    runLoopPlan (some R0) 12 true = ⟨⟨some 12, some 0.6, true⟩, some (expandBox R0)⟩
    ∧ runDetectionPlan (some R0) 12 true = ⟨⟨some 12, some 0.7, true⟩, some (expandBox R0)⟩ :=
  (C7_plan (some R0) 12 true (by norm_num)).2.2.2 R0 rfl (by norm_num)

/-- The React state the tracking claims range over: the tracked box,
the last published detections (read by the click handlers), and the
camera toggle. -/
structure AppState where
  trackedBox : Option Box
  detections : List Detection
  isCameraActive : Bool
deriving DecidableEq, Repr

/-- The externally triggered operations that write tracking state: a
frame tick of either variant (with that frame's fresh detections and the
auto-track flag), a click through either handler (with the mapped
point), and the camera-toggle button of either variant. -/
inductive Event where
  | frame1 (dets : List Detection) (isAutoTrack : Bool)
  | frame2 (dets : List Detection) (isAutoTrack : Bool)
  | click1 (x y : ℚ)
  | click2 (x y : ℚ)
  | toggleCamera1
  | toggleCamera2
deriving DecidableEq

/-- One state transition.  The frame ticks run the per-frame tracker
update and publish the fresh detections (`setDetections`); the clicks
run the hit-test handlers on the last published detections;
`toggleCamera1` (App.jsx line 247) only flips the camera flag, while
variant 2's `toggleCamera` (lines 453-459) also clears the tracked box
and the detections when switching the camera off. -/
def step (s : AppState) : Event → AppState
  | .frame1 dets auto =>
    { s with detections := dets, trackedBox := (runLoopTrack s.trackedBox auto dets).1 }
  | .frame2 dets auto =>
    { s with detections := dets, trackedBox := (runDetectionTrack s.trackedBox auto dets).1 }
  | .click1 x y =>
    { s with trackedBox := handleInteractionUpdate s.trackedBox s.detections x y }
  | .click2 x y =>
    { s with trackedBox := handleCanvasClickUpdate s.trackedBox s.detections x y }
  | .toggleCamera1 => { s with isCameraActive := !s.isCameraActive }
  | .toggleCamera2 =>
    if s.isCameraActive then
      { s with isCameraActive := false, trackedBox := none, detections := [] }
    else
      { s with isCameraActive := true }

/-- Initial React state: `trackedBox = null`, `detections = []`,
`isCameraActive = true`. -/
def initState : AppState :=
  ⟨none, [], true⟩

/-- Run a sequence of events from a state. -/
def run (s : AppState) (es : List Event) : AppState :=
  es.foldl step s

/-- The detection boxes an event introduces: only frame ticks carry
detector output. -/
def eventBoxes : Event → List Box
  | .frame1 dets _ => dets.map Detection.boundingBox
  | .frame2 dets _ => dets.map Detection.boundingBox
  | _ => []

/-- All detection boxes seen across a trace of events. -/
def traceBoxes : List Event → List Box
  | [] => []
  | e :: es => eventBoxes e ++ traceBoxes es

/-- Inductive invariant: the tracked box and every published detection
box come from the seen set of detector outputs. -/
def SeenInv (s : AppState) (seen : List Box) : Prop :=
  (∀ b : Box, s.trackedBox = some b → b ∈ seen) ∧
  (∀ d ∈ s.detections, d.boundingBox ∈ seen)

theorem matchStep_cases (R : Box) (s : ℚ × Option Box) (d : Detection) :
    matchStep R s d = s ∨ (matchStep R s d).2 = some d.boundingBox := by
  cases hiou : calculateIoU (some R) (some d.boundingBox) with
  | none => left; simp [matchStep, hiou]
  | some q =>
    by_cases hc : q > s.1 ∧ q > (0.25 : ℚ)
    · right; simp [matchStep, hiou, hc]
    · left; simp [matchStep, hiou, hc]

theorem foldl_matchStep_mem (R : Box) :
    ∀ (L : List Detection) (s : ℚ × Option Box) (b : Box),
      (L.foldl (matchStep R) s).2 = some b →
      s.2 = some b ∨ b ∈ L.map Detection.boundingBox := by
  intro L
  induction L with
  | nil => intro s b h; exact Or.inl h
  | cons d ds ih =>
    intro s b h
    rw [List.foldl_cons] at h
    rcases ih (matchStep R s d) b h with h1 | h1
    · rcases matchStep_cases R s d with h2 | h2
      · rw [h2] at h1
        exact Or.inl h1
      · rw [h1] at h2
        right
        rw [List.map_cons, Option.some_inj.mp h2]
        exact List.mem_cons_self _ _
    · right
      rw [List.map_cons]
      exact List.mem_cons_of_mem _ h1

theorem bestMatch_mem (R : Box) (dets : List Detection) (m : Box)
    (h : bestMatch R dets = some m) : m ∈ dets.map Detection.boundingBox := by
  unfold bestMatch at h
  rcases foldl_matchStep_mem R dets (0, none) m h with h1 | h1
  · exact absurd h1 (by simp)
  · exact h1

theorem foldl_reducePrev_mem :
    ∀ (L : List Detection) (acc : Detection),
      L.foldl reducePrev acc = acc ∨ L.foldl reducePrev acc ∈ L := by
  intro L
  induction L with
  | nil => intro acc; exact Or.inl rfl
  | cons x xs ih =>
    intro acc
    rw [List.foldl_cons]
    rcases ih (reducePrev acc x) with h | h
    · rw [h]
      unfold reducePrev
      split
      · exact Or.inl rfl
      · exact Or.inr (List.mem_cons_self x xs)
    · exact Or.inr (List.mem_cons_of_mem x h)

theorem selectReduce_mem (L : List Detection) (b : Box) (h : selectReduce L = some b) :
    b ∈ L.map Detection.boundingBox := by
  cases L with
  | nil => exact absurd h (by simp [selectReduce])
  | cons d ds =>
    simp only [selectReduce, Option.some_inj] at h
    rcases foldl_reducePrev_mem ds d with h1 | h1
    · rw [h1] at h
      rw [← h]
      exact List.mem_map_of_mem _ (List.mem_cons_self d ds)
    · rw [← h]
      exact List.mem_map_of_mem _ (List.mem_cons_of_mem d h1)

theorem foldl_largestStep_mem :
    ∀ (L : List Detection) (s : Box × ℚ),
      (L.foldl largestStep s).1 = s.1
      ∨ (L.foldl largestStep s).1 ∈ L.map Detection.boundingBox := by
  intro L
  induction L with
  | nil => intro s; exact Or.inl rfl
  | cons x xs ih =>
    intro s
    rw [List.foldl_cons]
    rcases ih (largestStep s x) with h | h
    · rw [h]
      simp only [largestStep]
      split
      · right
        rw [List.map_cons]
        exact List.mem_cons_self _ _
      · exact Or.inl rfl
    · right
      rw [List.map_cons]
      exact List.mem_cons_of_mem _ h

theorem selectForEach_mem (L : List Detection) (b : Box) (h : selectForEach L = some b) :
    b ∈ L.map Detection.boundingBox := by
  cases L with
  | nil => exact absurd h (by simp [selectForEach])
  | cons d ds =>
    simp only [selectForEach, Option.some_inj] at h
    rcases foldl_largestStep_mem (d :: ds)
        (d.boundingBox, d.boundingBox.width * d.boundingBox.height) with h1 | h1
    · rw [h1] at h
      rw [← h]
      exact List.mem_map_of_mem _ (List.mem_cons_self d ds)
    · rw [← h]
      exact h1

theorem foldl_hit_mem (p : Detection → Bool) :
    ∀ (L : List Detection) (init : Option Box) (b : Box),
      L.foldl (fun s e => if p e then some e.boundingBox else s) init = some b →
      init = some b ∨ b ∈ L.map Detection.boundingBox := by
  intro L
  induction L with
  | nil => intro init b h; exact Or.inl h
  | cons x xs ih =>
    intro init b h
    rw [List.foldl_cons] at h
    rcases ih _ b h with h1 | h1
    · by_cases hp : p x = true
      · rw [if_pos hp] at h1
        right
        rw [List.map_cons, Option.some_inj.mp h1]
        exact List.mem_cons_self _ _
      · rw [if_neg hp] at h1
        exact Or.inl h1
    · right
      rw [List.map_cons]
      exact List.mem_cons_of_mem _ h1

theorem runLoopTrack_some_def (R : Box) (auto : Bool) (dets : List Detection) :
    runLoopTrack (some R) auto dets =
      if (bestMatch R dets).isNone ∧ auto ∧ 0 < dets.length then
        (selectReduce dets, selectReduce dets)
      else
        (if (bestMatch R dets).isSome then bestMatch R dets else some R, bestMatch R dets) := rfl

theorem runLoopTrack_none_def (auto : Bool) (dets : List Detection) :
    runLoopTrack none auto dets =
      if (none : Option Box).isNone ∧ auto ∧ 0 < dets.length then
        (selectReduce dets, selectReduce dets)
      else
        (none, none) := rfl

theorem runDetectionTrack_some_def (R : Box) (auto : Bool) (dets : List Detection) :
    runDetectionTrack (some R) auto dets =
      if auto ∧ (bestMatch R dets).isNone ∧ 0 < dets.length then
        (selectForEach dets, selectForEach dets)
      else
        (if (bestMatch R dets).isSome then bestMatch R dets else some R, bestMatch R dets) := rfl

theorem runDetectionTrack_none_def (auto : Bool) (dets : List Detection) :
    runDetectionTrack none auto dets =
      if auto ∧ (none : Option Box).isNone ∧ 0 < dets.length then
        (selectForEach dets, selectForEach dets)
      else
        (none, none) := rfl

theorem runLoopTrack_sources (tb : Option Box) (auto : Bool) (dets : List Detection) (b : Box)
    (h : (runLoopTrack tb auto dets).1 = some b) :
    tb = some b ∨ b ∈ dets.map Detection.boundingBox := by
  cases tb with
  | none =>
    rw [runLoopTrack_none_def] at h
    split at h
    · exact Or.inr (selectReduce_mem dets b h)
    · exact absurd h (by simp)
  | some R =>
    rw [runLoopTrack_some_def] at h
    split at h
    · exact Or.inr (selectReduce_mem dets b h)
    · dsimp only at h
      cases hbm : bestMatch R dets with
      | none =>
        rw [hbm] at h
        simp at h
        exact Or.inl (by rw [h])
      | some m =>
        rw [hbm] at h
        simp at h
        exact Or.inr (h ▸ bestMatch_mem R dets m hbm)

theorem runDetectionTrack_sources (tb : Option Box) (auto : Bool) (dets : List Detection)
    (b : Box) (h : (runDetectionTrack tb auto dets).1 = some b) :
    tb = some b ∨ b ∈ dets.map Detection.boundingBox := by
  cases tb with
  | none =>
    rw [runDetectionTrack_none_def] at h
    split at h
    · exact Or.inr (selectForEach_mem dets b h)
    · exact absurd h (by simp)
  | some R =>
    rw [runDetectionTrack_some_def] at h
    split at h
    · exact Or.inr (selectForEach_mem dets b h)
    · dsimp only at h
      cases hbm : bestMatch R dets with
      | none =>
        rw [hbm] at h
        simp at h
        exact Or.inl (by rw [h])
      | some m =>
        rw [hbm] at h
        simp at h
        exact Or.inr (h ▸ bestMatch_mem R dets m hbm)

theorem handleInteractionUpdate_sources (tb : Option Box) (dets : List Detection) (x y : ℚ)
    (b : Box) (h : handleInteractionUpdate tb dets x y = some b) :
    tb = some b ∨ b ∈ dets.map Detection.boundingBox := by
  unfold handleInteractionUpdate at h
  split at h
  · exact Or.inl h
  · exact foldl_hit_mem _ dets tb b h

theorem handleCanvasClickUpdate_sources (tb : Option Box) (dets : List Detection) (x y : ℚ)
    (b : Box) (h : handleCanvasClickUpdate tb dets x y = some b) :
    tb = some b ∨ b ∈ dets.map Detection.boundingBox := by
  unfold handleCanvasClickUpdate at h
  split at h
  · exact Or.inl h
  · rcases foldl_hit_mem _ dets none b h with h1 | h1
    · exact absurd h1 (by simp)
    · exact Or.inr h1

theorem step_seenInv (s : AppState) (seen : List Box) (e : Event)
    (h : SeenInv s seen) : SeenInv (step s e) (seen ++ eventBoxes e) := by
  obtain ⟨htb, hdet⟩ := h
  cases e with
  | frame1 dets auto =>
    constructor
    · intro b hb
      rcases runLoopTrack_sources s.trackedBox auto dets b hb with h1 | h1
      · exact List.mem_append_left _ (htb b h1)
      · exact List.mem_append_right _ h1
    · intro d hd
      exact List.mem_append_right _ (List.mem_map_of_mem _ hd)
  | frame2 dets auto =>
    constructor
    · intro b hb
      rcases runDetectionTrack_sources s.trackedBox auto dets b hb with h1 | h1
      · exact List.mem_append_left _ (htb b h1)
      · exact List.mem_append_right _ h1
    · intro d hd
      exact List.mem_append_right _ (List.mem_map_of_mem _ hd)
  | click1 x y =>
    constructor
    · intro b hb
      rcases handleInteractionUpdate_sources s.trackedBox s.detections x y b hb with h1 | h1
      · exact List.mem_append_left _ (htb b h1)
      · rcases List.mem_map.mp h1 with ⟨d, hd, hdb⟩
        exact List.mem_append_left _ (hdb ▸ hdet d hd)
    · intro d hd
      exact List.mem_append_left _ (hdet d hd)
  | click2 x y =>
    constructor
    · intro b hb
      rcases handleCanvasClickUpdate_sources s.trackedBox s.detections x y b hb with h1 | h1
      · exact List.mem_append_left _ (htb b h1)
      · rcases List.mem_map.mp h1 with ⟨d, hd, hdb⟩
        exact List.mem_append_left _ (hdb ▸ hdet d hd)
    · intro d hd
      exact List.mem_append_left _ (hdet d hd)
  | toggleCamera1 =>
    exact ⟨fun b hb => List.mem_append_left _ (htb b hb),
      fun d hd => List.mem_append_left _ (hdet d hd)⟩
  | toggleCamera2 =>
    constructor
    · intro b hb
      simp only [step] at hb
      split at hb
      · simp at hb
      · exact List.mem_append_left _ (htb b hb)
    · intro d hd
      simp only [step] at hd
      split at hd
      · simp at hd
      · exact List.mem_append_left _ (hdet d hd)

theorem run_seenInv :
    ∀ (es : List Event) (s : AppState) (seen : List Box),
      SeenInv s seen → SeenInv (run s es) (seen ++ traceBoxes es) := by
  intro es
  induction es with
  | nil =>
    intro s seen h
    simpa [run, traceBoxes] using h
  | cons e es ih =>
    intro s seen h
    have h2 := ih (step s e) (seen ++ eventBoxes e) (step_seenInv s seen e h)
    rw [run, List.foldl_cons, traceBoxes, ← List.append_assoc]
    exact h2

/-- C9: in every state reachable from the initial state by any sequence
of frame ticks, clicks, and camera toggles of either variant, a
non-null tracked region is the bounding box of some detection delivered
by a frame event of the trace — no operation installs a rectangle from
outside the detection stream. -/
theorem C9_region_from_detections (es : List Event) (b : Box)
    (h : (run initState es).trackedBox = some b) : b ∈ traceBoxes es := by
  have hinit : SeenInv initState [] := by
    constructor
    · intro b hb
      exact absurd hb (by simp [initState])
    · intro d hd
      exact absurd hd (by simp [initState])
  have hinv := run_seenInv es initState [] hinit
  have hmem := hinv.1 b h
  simpa using hmem

theorem C9_witness :
    dFar.boundingBox ∈ traceBoxes [Event.frame1 [dFar] true] := by
  refine C9_region_from_detections [Event.frame1 [dFar] true] dFar.boundingBox ?h
  show (step initState (Event.frame1 [dFar] true)).trackedBox = some dFar.boundingBox
  show (runLoopTrack none true [dFar]).1 = some dFar.boundingBox
  rw [runLoopTrack_none_def]
  norm_num [selectReduce]

/-- The operations present in the first variant only: its frame tick,
its click handler, and its camera-toggle button (App.jsx line 247),
which merely flips `isCameraActive`. -/
inductive Event1 where
  | frame (dets : List Detection) (isAutoTrack : Bool)
  | click (x y : ℚ)
  | toggleCamera
deriving DecidableEq

/-- Variant-1 state transition. -/
def step1 (s : AppState) : Event1 → AppState
  | .frame dets auto =>
    { s with detections := dets, trackedBox := (runLoopTrack s.trackedBox auto dets).1 }
  | .click x y =>
    { s with trackedBox := handleInteractionUpdate s.trackedBox s.detections x y }
  | .toggleCamera => { s with isCameraActive := !s.isCameraActive }

/-- Run a sequence of variant-1 events. -/
def run1 (s : AppState) (es : List Event1) : AppState :=
  es.foldl step1 s

theorem foldl_hit_isSome (p : Detection → Bool) :
    ∀ (L : List Detection) (init : Option Box), init.isSome = true →
      (L.foldl (fun s e => if p e then some e.boundingBox else s) init).isSome = true := by
  intro L
  induction L with
  | nil => intro init h; exact h
  | cons x xs ih =>
    intro init h
    rw [List.foldl_cons]
    apply ih
    by_cases hp : p x = true
    · rw [if_pos hp]
      rfl
    · rw [if_neg hp]
      exact h

theorem runLoopTrack_isSome (tb : Option Box) (auto : Bool) (dets : List Detection)
    (h : tb.isSome = true) : ((runLoopTrack tb auto dets).1).isSome = true := by
  cases tb with
  | none => simp at h
  | some R =>
    rw [runLoopTrack_some_def]
    split
    · next hc =>
      cases dets with
      | nil => exact absurd hc.2.2 (by simp)
      | cons d ds => simp [selectReduce]
    · dsimp only
      cases hbm : bestMatch R dets with
      | none => simp [hbm]
      | some m => simp [hbm]

theorem handleInteractionUpdate_isSome (tb : Option Box) (dets : List Detection) (x y : ℚ)
    (h : tb.isSome = true) : (handleInteractionUpdate tb dets x y).isSome = true := by
  unfold handleInteractionUpdate
  split
  · exact h
  · exact foldl_hit_isSome _ dets tb h

/-- C10: in the first variant, once the tracked region is non-null it
stays non-null across any sequence of frame ticks, clicks, and
camera toggles: no variant-1 operation ever writes null to the tracked
box, so Idle is unreachable after the first lock. -/
theorem C10_no_untrack :
    ∀ (es : List Event1) (s : AppState), s.trackedBox.isSome = true →
      (run1 s es).trackedBox.isSome = true := by
  intro es
  induction es with
  | nil => intro s h; exact h
  | cons e es ih =>
    intro s h
    rw [run1, List.foldl_cons]
    apply ih
    cases e with
    | frame dets auto => exact runLoopTrack_isSome s.trackedBox auto dets h
    | click x y => exact handleInteractionUpdate_isSome s.trackedBox s.detections x y h
    | toggleCamera => exact h

theorem C10_witness :
    (run1 ⟨some R0, [], true⟩ [Event1.toggleCamera, Event1.frame [] false]).trackedBox.isSome
      = true :=
  C10_no_untrack [Event1.toggleCamera, Event1.frame [] false] ⟨some R0, [], true⟩ rfl

end SmartFocus
